import Mathlib

/- A formal model of src/attractor_cinematic.c: the per-frame simulation and
   render pipeline (heatmap colouring, parameter interpolation, transition
   blending, fragment/type scheduling, Euler integration with divergence
   recovery, strided statistics, cinematic camera framing, logarithmic tone
   mapping).  C float values are modelled as exact rationals (reals for the
   logarithmic tone mapper, whose properties hinge on the logarithm); float
   literals are carried over at their decimal face value.  Transcendental
   library calls (sinf, cosf) are modelled as arbitrary function parameters,
   since none of the verified properties depends on their values.  IEEE NaN
   propagation, where it matters (the escape/divergence recovery test), is
   modelled by the Flt type below; 32-bit signed integer arithmetic, where
   it can overflow (the respawn index hash), is modelled by two's-complement
   wrap-around, the behaviour of the targeted compilers. -/

/-! ### Heatmap (src/attractor_cinematic.c lines 124-132) -/

/-- First heatmap segment, `t < 0.2` branch: `*r = 0; *g = t*5; *b = 1`. -/
def heatSeg1 (t : ℚ) : ℚ × ℚ × ℚ := (0, t * 5, 1)

/-- Second heatmap segment, `t < 0.5` branch:
`*r = 0; *g = 1; *b = 1 - (t-0.2)*3.3`. -/
def heatSeg2 (t : ℚ) : ℚ × ℚ × ℚ := (0, 1, 1 - (t - 1/5) * (33/10))

/-- Third heatmap segment, `t < 0.8` branch:
`*r = (t-0.5)*3.3; *g = 1; *b = 0`. -/
def heatSeg3 (t : ℚ) : ℚ × ℚ × ℚ := ((t - 1/2) * (33/10), 1, 0)

/-- Fourth heatmap segment, final branch:
`*r = 1; *g = 1 - (t-0.8)*5; *b = (t-0.8)*5`. -/
def heatSeg4 (t : ℚ) : ℚ × ℚ × ℚ := (1, 1 - (t - 4/5) * 5, (t - 4/5) * 5)

/-- `get_heatmap_color` (lines 125-132): clamp `t` into `[0,1]` (two
sequential `if`s), then dispatch on the four segments with breakpoints
`0.2`, `0.5`, `0.8`. -/
def get_heatmap_color (t0 : ℚ) : ℚ × ℚ × ℚ :=
  let t1 := if t0 < 0 then 0 else t0
  let t2 := if 1 < t1 then 1 else t1
  if t2 < 1/5 then heatSeg1 t2
  else if t2 < 1/2 then heatSeg2 t2
  else if t2 < 4/5 then heatSeg3 t2
  else heatSeg4 t2

/-- Depth fade of the rasterizer (line 438):
`depth_fade = 1.0f / (1.0f + fabsf(rz) * 0.01f)`. -/
def depthFade (rz : ℚ) : ℚ := 1 / (1 + |rz| * (1/100))

/-! ### Parameter set and interpolation (lines 54, 279-282) -/

/-- `Params` (line 54): the six per-attractor coefficients `a..f`. -/
structure Params where
  a : ℚ
  b : ℚ
  c : ℚ
  d : ℚ
  e : ℚ
  f : ℚ
  deriving DecidableEq

/-- One frame of parameter interpolation (lines 279-282):
`cur_p.X += (target_p.X - cur_p.X) * 0.02f` for each of the six fields. -/
def paramLerp (target cur : Params) : Params :=
  { a := cur.a + (target.a - cur.a) * (1/50)
    b := cur.b + (target.b - cur.b) * (1/50)
    c := cur.c + (target.c - cur.c) * (1/50)
    d := cur.d + (target.d - cur.d) * (1/50)
    e := cur.e + (target.e - cur.e) * (1/50)
    f := cur.f + (target.f - cur.f) * (1/50) }

/-! ### Transition blend and fragment/type scheduler (lines 251-288) -/

/-- One frame of the transition-blend update (lines 285-288):
`if (blend < 1) { blend += 1/120; if (blend > 1) blend = 1; }`. -/
def blendStep (b : ℚ) : ℚ :=
  if b < 1 then
    let b1 := b + 1/120
    if 1 < b1 then 1 else b1
  else b

/-- The scheduler state that drives attractor-type cycling:
`algo_timer`, `current_type`, `previous_type`, `transition_blend`
(lines 235, 248-249, 252). -/
structure SchedState where
  algoTimer : ℕ
  currentType : ℕ
  previousType : ℕ
  blend : ℚ
  deriving DecidableEq

/-- The fragment-boundary action (lines 257-262): `algo_timer++`; when it
reaches 6, save the old type, advance `current_type = (current_type+1) % 5`,
reset the timer and restart the blend at 0. -/
def boundaryStep (s : SchedState) : SchedState :=
  let t := s.algoTimer + 1
  if 6 ≤ t then
    { algoTimer := 0, currentType := (s.currentType + 1) % 5,
      previousType := s.currentType, blend := 0 }
  else { s with algoTimer := t }

/-- One whole frame of the scheduler (lines 256-288): the boundary action
fires exactly when `frame % frames_per_fragment == 0`, then the blend is
advanced.  (The randomized `target_p` draw and the parameter interpolation
are modelled separately, by `paramLerp`; they do not touch this state.) -/
def schedFrame (fpf f : ℕ) (s : SchedState) : SchedState :=
  let s1 := if f % fpf = 0 then boundaryStep s else s
  { s1 with blend := blendStep s1.blend }

/-- Run the scheduler over frames `0, 1, …, n-1`. -/
def schedRun (fpf : ℕ) : ℕ → SchedState → SchedState
  | 0, s => s
  | n + 1, s => schedFrame fpf n (schedRun fpf n s)

/-- Whether a type change fires at frame `f` of the run started from `s0`:
frame `f` is a fragment boundary and the incremented timer reaches 6. -/
def isChange (fpf : ℕ) (s0 : SchedState) (f : ℕ) : Bool :=
  decide (f % fpf = 0) && decide (6 ≤ (schedRun fpf f s0).algoTimer + 1)

/-- Number of type changes during frames `0, …, n-1`. -/
def changeCount (fpf : ℕ) (s0 : SchedState) (n : ℕ) : ℕ :=
  ((List.range n).filter (isChange fpf s0)).length

/-- Number of fragment boundaries (frames divisible by `fpf`) among
frames `0, …, n-1`. -/
def bCount (fpf : ℕ) : ℕ → ℕ
  | 0 => 0
  | n + 1 => bCount fpf n + (if n % fpf = 0 then 1 else 0)

/-! ### Floats with NaN, and the integrator (lines 297-349) -/

/-- A C float as used by the integration pass: either a finite value
(modelled exactly as a rational) or NaN.  Every arithmetic operation
propagates NaN; every ordered comparison involving NaN is false, as in
IEEE-754. -/
inductive Flt where
  | nan : Flt
  | fin : ℚ → Flt
  deriving DecidableEq

/-- NaN-propagating addition. -/
def Flt.add : Flt → Flt → Flt
  | .fin a, .fin b => .fin (a + b)
  | _, _ => .nan

/-- NaN-propagating subtraction. -/
def Flt.sub : Flt → Flt → Flt
  | .fin a, .fin b => .fin (a - b)
  | _, _ => .nan

/-- NaN-propagating multiplication (note `0 * NaN = NaN`, as in IEEE-754). -/
def Flt.mul : Flt → Flt → Flt
  | .fin a, .fin b => .fin (a * b)
  | _, _ => .nan

/-- NaN-propagating division (only used with the constant divisor 3). -/
def Flt.div : Flt → Flt → Flt
  | .fin a, .fin b => .fin (a / b)
  | _, _ => .nan

instance : Add Flt := ⟨Flt.add⟩
instance : Sub Flt := ⟨Flt.sub⟩
instance : Mul Flt := ⟨Flt.mul⟩
instance : Div Flt := ⟨Flt.div⟩

/-- `fabs(x) > c` on a float: false when `x` is NaN (IEEE comparison). -/
def Flt.absGt (x : Flt) (c : ℚ) : Bool :=
  match x with
  | .fin q => decide (c < |q|)
  | .nan => false

/-- `isnan(x)`. -/
def Flt.isnan (x : Flt) : Bool :=
  match x with
  | .nan => true
  | .fin _ => false

/-- Embed a finite parameter/constant into `Flt`. -/
def fq (q : ℚ) : Flt := Flt.fin q

/-- `sinf` lifted to `Flt`: `sinf(NaN) = NaN`; on finite input it applies
the abstract sine parameter `s` (no verified property depends on its
values). -/
def fsin (s : ℚ → ℚ) : Flt → Flt
  | .fin q => .fin (s q)
  | .nan => .nan

/-- The vector-field evaluator (lines 304-316 for the current type, repeated
verbatim at lines 320-332 for the previous type): dispatch on the attractor
type (0 Aizawa, 1 Thomas, 2 Lorenz, 3 Halvorsen, 4 Chen), always using the
one current parameter set `p`.  Unknown types leave the zero-initialised
derivative, as the fallthrough of the `if` chain does. -/
def fieldEval (sq : ℚ → ℚ) (ty : ℕ) (p : Params) (x y z : Flt) : Flt × Flt × Flt :=
  if ty = 0 then
    ((z - fq p.b) * x - fq p.d * y,
     fq p.d * x + (z - fq p.b) * y,
     fq p.c + fq p.a * z - z * z * z / fq 3 - (x * x + y * y) * (fq 1 + fq p.e * z)
       + fq p.f * z * x * x * x)
  else if ty = 1 then
    (fsin sq y - fq p.b * x, fsin sq z - fq p.b * y, fsin sq x - fq p.b * z)
  else if ty = 2 then
    (fq p.a * (y - x), x * (fq p.b - z) - y, x * y - fq p.c * z)
  else if ty = 3 then
    (fq (-p.a) * x - fq 4 * y - fq 4 * z - y * y,
     fq (-p.a) * y - fq 4 * z - fq 4 * x - z * z,
     fq (-p.a) * z - fq 4 * x - fq 4 * y - x * x)
  else if ty = 4 then
    (fq p.a * (y - x), fq (p.c - p.a) * x - x * z + fq p.c * y, x * y - fq p.b * z)
  else (fq 0, fq 0, fq 0)

/-- The per-particle output of one integration step: stored position and
velocity (lines 347-348). -/
structure PartOut where
  x : Flt
  y : Flt
  z : Flt
  vx : Flt
  vy : Flt
  vz : Flt
  deriving DecidableEq

/-- The blended-Euler part of the integration pass (lines 299-339): evaluate
both fields at the old position, blend
`d = d_prev + (d_cur - d_prev) * transition_blend`, and advance
`pos += d * DT` with `DT = 0.012`. -/
def eulerStep (sq : ℚ → ℚ) (ct pt : ℕ) (blend : ℚ) (p : Params) (x y z : Flt) : PartOut :=
  let dc := fieldEval sq ct p x y z
  let dp := fieldEval sq pt p x y z
  let dx := dp.1 + (dc.1 - dp.1) * fq blend
  let dy := dp.2.1 + (dc.2.1 - dp.2.1) * fq blend
  let dz := dp.2.2 + (dc.2.2 - dp.2.2) * fq blend
  { x := x + dx * fq (3/250), y := y + dy * fq (3/250), z := z + dz * fq (3/250),
    vx := dx, vy := dy, vz := dz }

/-- The escape/divergence test of line 341, exactly as written:
`fabs(x) > 80 || fabs(y) > 80 || fabs(z) > 80 || isnan(x)` — NaN is tested
on `x` only. -/
def escapeCond (o : PartOut) : Bool :=
  Flt.absGt o.x 80 || Flt.absGt o.y 80 || Flt.absGt o.z 80 || Flt.isnan o.x

/-- A C `int` product reduced modulo 2^32 and reinterpreted as a signed
two's-complement value (the wrap-around behaviour of `i * 1327` when it
exceeds `INT_MAX`). -/
def wrap32 (n : ℕ) : ℤ := (((n + 2 ^ 31) % 2 ^ 32 : ℕ) : ℤ) - 2 ^ 31

/-- C's truncated `%` on signed integers: the remainder takes the sign of
the dividend. -/
def cRemT (a m : ℤ) : ℤ := if 0 ≤ a then a % m else -((-a) % m)

/-- The respawn coordinate for particle `i` (lines 342-343):
`hash = (float)((i * 1327) % 1000) / 1000.0f;  x = (hash - 0.5f) * 4.0f`
(the same value is assigned to all three coordinates).  `i * 1327` is a
32-bit signed product, so it wraps for large `i`. -/
def respawnCoord (i : ℕ) : ℚ :=
  (((cRemT (wrap32 (i * 1327)) 1000 : ℤ) : ℚ) / 1000 - 1/2) * 4

/-- One full integration step for particle `i` (lines 299-349): blended
Euler advance, then the escape/divergence recovery rule, which overwrites
position with the index-hash respawn point and zeroes the velocity. -/
def integrateStep (sq : ℚ → ℚ) (ct pt : ℕ) (blend : ℚ) (p : Params) (i : ℕ)
    (x y z : Flt) : PartOut :=
  let e := eulerStep sq ct pt blend p x y z
  if escapeCond e = true then
    { x := Flt.fin (respawnCoord i), y := Flt.fin (respawnCoord i),
      z := Flt.fin (respawnCoord i),
      vx := Flt.fin 0, vy := Flt.fin 0, vz := Flt.fin 0 }
  else e

/-! ### Statistics passes (lines 351-377) -/

/-- The rotated x used by the statistics and render passes (line 358):
`rx = x * cos_t - z * sin_t` (the cosine/sine of `theta` enter as the
abstract values `ct`, `st`). -/
def rotX (ct st x z : ℚ) : ℚ := x * ct - z * st

/-- The indices visited by `for (i = 0; i < n; i += 100)`:
`0, 100, 200, …` below `n`. -/
def sampleIdx (n : ℕ) : List ℕ := (List.range ((n + 99) / 100)).map (fun k => k * 100)

/-- `num_samples = num_particles / sample_stride` (line 353) — C integer
division, i.e. the floor. -/
def numSamples (n : ℕ) : ℕ := n / 100

/-- First statistics pass, x accumulator (lines 356-360): sum of rotated x
over the stride-100 subsample. -/
def sumSampleX (ct st : ℚ) (hx hz : ℕ → ℚ) (n : ℕ) : ℚ :=
  ((sampleIdx n).map (fun i => rotX ct st (hx i) (hz i))).sum

/-- First statistics pass, y accumulator (`ry = y`). -/
def sumSampleY (hy : ℕ → ℚ) (n : ℕ) : ℚ := ((sampleIdx n).map (fun i => hy i)).sum

/-- `center_x = sum_x / num_samples` (line 364). -/
def centerX (ct st : ℚ) (hx hz : ℕ → ℚ) (n : ℕ) : ℚ :=
  sumSampleX ct st hx hz n / (numSamples n : ℚ)

/-- `center_y = sum_y / num_samples` (line 365). -/
def centerY (hy : ℕ → ℚ) (n : ℕ) : ℚ := sumSampleY hy n / (numSamples n : ℚ)

/-- Second statistics pass, x (lines 369-376): mean absolute deviation of
rotated x from `center_x`, again divided by `num_samples`. -/
def meanDistX (ct st : ℚ) (hx hz : ℕ → ℚ) (n : ℕ) : ℚ :=
  ((sampleIdx n).map (fun i => |rotX ct st (hx i) (hz i) - centerX ct st hx hz n|)).sum
    / (numSamples n : ℚ)

/-- Second statistics pass, y. -/
def meanDistY (hy : ℕ → ℚ) (n : ℕ) : ℚ :=
  ((sampleIdx n).map (fun i => |hy i - centerY hy n|)).sum / (numSamples n : ℚ)

/-! ### Cinematic camera (lines 40-46, 242-245, 379-414) -/

/-- The configurable zoom parameters (lines 41-45). -/
structure CamCfg where
  zoomOscillation : ℚ
  dynamicAdjustment : ℚ
  screenFillFactor : ℚ
  minZoom : ℚ
  maxZoom : ℚ
  deriving DecidableEq

/-- Their default values (lines 41-45): oscillation 0, dynamic adjustment 0,
fill 0.07, min zoom 60, max zoom 2000. -/
def defaultCamCfg : CamCfg :=
  { zoomOscillation := 0, dynamicAdjustment := 0, screenFillFactor := 7/100,
    minZoom := 60, maxZoom := 2000 }

/-- The camera state smoothed across frames (lines 242-245). -/
structure CamState where
  scale : ℚ
  cx : ℚ
  cy : ℚ
  smoothMaxSpd : ℚ
  deriving DecidableEq

/-- Two sequential one-sided clamps, as the C code writes them
(`if (v < lo) v = lo; if (v > hi) v = hi;`). -/
def clampSeq (v lo hi : ℚ) : ℚ :=
  let v1 := if v < lo then lo else v
  if hi < v1 then hi else v1

/-- A target extent (lines 396-400): mean absolute deviation times the
combined multiplier, floored at 1.0. -/
def targetExtent (mdist mult : ℚ) : ℚ :=
  let t0 := mdist * mult
  if t0 < 1 then 1 else t0

/-- The M_PI literal of line 51, at decimal face value. -/
def piQ : ℚ := 314159265358979323846 / 100000000000000000000

/-- The clamped target scale (lines 402-407):
`min(WIDTH*fill/target_w, HEIGHT*fill/target_h)` clamped into
`[min_zoom, max_zoom]` (WIDTH 1920, HEIGHT 1080). -/
def camTargetScale (cfg : CamCfg) (tw th : ℚ) : ℚ :=
  let scaleW := (1920 * cfg.screenFillFactor) / tw
  let scaleH := (1080 * cfg.screenFillFactor) / th
  clampSeq (if scaleW < scaleH then scaleW else scaleH) cfg.minZoom cfg.maxZoom

/-- One frame of the camera controller (lines 379-414): sinusoidal factor
from the fragment progress (`sq` abstracts `sinf`), dynamic factor from the
velocity ratio clamped into `[0.85, 1.15]`, target extents floored at 1,
target scale clamped, then exponential smoothing of scale/center at rate
0.005 and of the speed normaliser toward `max(max_spd, 1)`. -/
def camStep (sq : ℚ → ℚ) (cfg : CamCfg) (fpf frame : ℕ)
    (sbm mdx mdy msp ccx ccy : ℚ) (cs : CamState) : CamState :=
  let cycleProg : ℚ := ((frame % fpf : ℕ) : ℚ) / (fpf : ℚ)
  let zoomWave := sq (cycleProg * 2 * piQ)
  let sinF := 1 + zoomWave * cfg.zoomOscillation
  let velQ := msp / (cs.smoothMaxSpd + 1/1000)
  let dynF := clampSeq (1 + (velQ - 1) * cfg.dynamicAdjustment) (17/20) (23/20)
  let mult := sbm * dynF * sinF
  let ts := camTargetScale cfg (targetExtent mdx mult) (targetExtent mdy mult)
  { scale := cs.scale + (ts - cs.scale) * (1/200),
    cx := cs.cx + (ccx - cs.cx) * (1/200),
    cy := cs.cy + (ccy - cs.cy) * (1/200),
    smoothMaxSpd := cs.smoothMaxSpd + ((if msp < 1 then 1 else msp) - cs.smoothMaxSpd) * (1/200) }

/-- One frame's worth of camera-controller inputs. -/
structure CamIn where
  fpf : ℕ
  frame : ℕ
  sbm : ℚ
  mdx : ℚ
  mdy : ℚ
  msp : ℚ
  ccx : ℚ
  ccy : ℚ

/-- Run the camera controller over a sequence of per-frame inputs. -/
def camRun (sq : ℚ → ℚ) (cfg : CamCfg) (l : List CamIn) (cs : CamState) : CamState :=
  l.foldl (fun s inp => camStep sq cfg inp.fpf inp.frame inp.sbm inp.mdx inp.mdy inp.msp inp.ccx inp.ccy s) cs

/-! ### Tone mapper (lines 451-467) -/

/-- The raw tone-mapped value of one channel (lines 458-460):
`logf(1 + accum * EXPOSURE) * 45` with EXPOSURE 2.5. -/
noncomputable def toneRaw (v : ℝ) : ℝ := Real.log (1 + v * (5/2)) * 45

/-- One output channel as the code computes it (lines 458-466): the raw
value, clamped above at 255 (`if (r > 255) r = 255`), then truncated by the
`(unsigned char)` cast. -/
noncomputable def toneChannel (v : ℝ) : ℕ :=
  Nat.floor (if 255 < toneRaw v then (255 : ℝ) else toneRaw v)

/-- Modelled from the spec: `out = clamp(ln(1 + accum × EXPOSURE) × 45, 0,
255)` truncated to an integer — the formula the specification states,
written with a symmetric clamp, for comparison with `toneChannel`. -/
noncomputable def toneChannelSpec (v : ℝ) : ℕ :=
  Nat.floor (max 0 (min (toneRaw v) 255))

/-! ## Helper lemmas -/

@[simp] theorem fin_add_fin (a b : ℚ) : Flt.fin a + Flt.fin b = Flt.fin (a + b) := rfl

@[simp] theorem fin_sub_fin (a b : ℚ) : Flt.fin a - Flt.fin b = Flt.fin (a - b) := rfl

@[simp] theorem fin_mul_fin (a b : ℚ) : Flt.fin a * Flt.fin b = Flt.fin (a * b) := rfl

@[simp] theorem fin_div_fin (a b : ℚ) : Flt.fin a / Flt.fin b = Flt.fin (a / b) := rfl

@[simp] theorem fsin_fin (s : ℚ → ℚ) (a : ℚ) : fsin s (Flt.fin a) = Flt.fin (s a) := rfl

@[simp] theorem nan_add (x : Flt) : Flt.nan + x = Flt.nan := by cases x <;> rfl

@[simp] theorem add_nan (x : Flt) : x + Flt.nan = Flt.nan := by cases x <;> rfl

@[simp] theorem nan_sub (x : Flt) : Flt.nan - x = Flt.nan := by cases x <;> rfl

@[simp] theorem sub_nan (x : Flt) : x - Flt.nan = Flt.nan := by cases x <;> rfl

@[simp] theorem nan_mul (x : Flt) : Flt.nan * x = Flt.nan := by cases x <;> rfl

@[simp] theorem mul_nan (x : Flt) : x * Flt.nan = Flt.nan := by cases x <;> rfl

@[simp] theorem nan_div (x : Flt) : Flt.nan / x = Flt.nan := by cases x <;> rfl

@[simp] theorem div_nan (x : Flt) : x / Flt.nan = Flt.nan := by cases x <;> rfl

@[simp] theorem fsin_nan (s : ℚ → ℚ) : fsin s Flt.nan = Flt.nan := rfl

@[simp] theorem absGt_nan (c : ℚ) : Flt.absGt Flt.nan c = false := rfl

@[simp] theorem isnan_nan : Flt.nan.isnan = true := rfl

@[simp] theorem absGt_fin (a c : ℚ) : Flt.absGt (Flt.fin a) c = decide (c < |a|) := rfl

@[simp] theorem isnan_fin (a : ℚ) : (Flt.fin a).isnan = false := rfl

theorem fieldEval_fin (sq : ℚ → ℚ) (ty : ℕ) (p : Params) (a b c : ℚ) :
    ∃ u v w : ℚ, fieldEval sq ty p (Flt.fin a) (Flt.fin b) (Flt.fin c) =
      (Flt.fin u, Flt.fin v, Flt.fin w) := by
  unfold fieldEval
  split_ifs <;> exact ⟨_, _, _, rfl⟩

theorem eulerStep_fin (sq : ℚ → ℚ) (ct pt : ℕ) (blend : ℚ) (p : Params) (a b c : ℚ) :
    ∃ x1 y1 z1 dx dy dz : ℚ,
      eulerStep sq ct pt blend p (Flt.fin a) (Flt.fin b) (Flt.fin c) =
        { x := Flt.fin x1, y := Flt.fin y1, z := Flt.fin z1,
          vx := Flt.fin dx, vy := Flt.fin dy, vz := Flt.fin dz } := by
  obtain ⟨u, v, w, hc⟩ := fieldEval_fin sq ct p a b c
  obtain ⟨u2, v2, w2, hp⟩ := fieldEval_fin sq pt p a b c
  refine ⟨a + (u2 + (u - u2) * blend) * (3/250), b + (v2 + (v - v2) * blend) * (3/250),
    c + (w2 + (w - w2) * blend) * (3/250), u2 + (u - u2) * blend, v2 + (v - v2) * blend,
    w2 + (w - w2) * blend, ?_⟩
  simp [eulerStep, hc, hp, fq]

theorem cRemT_bounds (a : ℤ) : -1000 < cRemT a 1000 ∧ cRemT a 1000 < 1000 := by
  unfold cRemT
  split_ifs with h
  · have h1 := Int.emod_nonneg a (by norm_num : (1000:ℤ) ≠ 0)
    have h2 := Int.emod_lt_of_pos a (by norm_num : (0:ℤ) < 1000)
    omega
  · have h1 := Int.emod_nonneg (-a) (by norm_num : (1000:ℤ) ≠ 0)
    have h2 := Int.emod_lt_of_pos (-a) (by norm_num : (0:ℤ) < 1000)
    omega

theorem respawnCoord_bounds (i : ℕ) : -6 < respawnCoord i ∧ respawnCoord i < 6 := by
  obtain ⟨h1, h2⟩ := cRemT_bounds (wrap32 (i * 1327))
  have hq1 : (-1000 : ℚ) < ((cRemT (wrap32 (i * 1327)) 1000 : ℤ) : ℚ) := by exact_mod_cast h1
  have hq2 : ((cRemT (wrap32 (i * 1327)) 1000 : ℤ) : ℚ) < 1000 := by exact_mod_cast h2
  unfold respawnCoord
  constructor <;> linarith

theorem heatColor_mem (t : ℚ) :
    (0 ≤ (get_heatmap_color t).1 ∧ (get_heatmap_color t).1 ≤ 1) ∧
    (0 ≤ (get_heatmap_color t).2.1 ∧ (get_heatmap_color t).2.1 ≤ 1) ∧
    (0 ≤ (get_heatmap_color t).2.2 ∧ (get_heatmap_color t).2.2 ≤ 1) := by
  simp only [get_heatmap_color, heatSeg1, heatSeg2, heatSeg3, heatSeg4]
  split_ifs <;> refine ⟨⟨?_, ?_⟩, ⟨?_, ?_⟩, ⟨?_, ?_⟩⟩ <;> simp <;> linarith

theorem depthFade_mem (rz : ℚ) : 0 < depthFade rz ∧ depthFade rz ≤ 1 := by
  have h0 : (0:ℚ) ≤ |rz| := abs_nonneg rz
  have hd : (0:ℚ) < 1 + |rz| * (1/100) := by linarith
  constructor
  · exact div_pos one_pos hd
  · rw [depthFade, div_le_one hd]; linarith

theorem clampSeq_mem (v lo hi : ℚ) (h : lo ≤ hi) :
    lo ≤ clampSeq v lo hi ∧ clampSeq v lo hi ≤ hi := by
  simp only [clampSeq]
  split_ifs <;> constructor <;> linarith

theorem targetExtent_ge (mdist mult : ℚ) : 1 ≤ targetExtent mdist mult := by
  simp only [targetExtent]
  split_ifs <;> linarith

theorem blendIterEq : ∀ k : ℕ, k ≤ 120 → blendStep^[k] (0:ℚ) = (k : ℚ) / 120 := by
  intro k
  induction k with
  | zero => intro _; simp
  | succ m ih =>
    intro hm
    rw [Function.iterate_succ_apply', ih (by omega)]
    have hlt : (m : ℚ) / 120 < 1 := by
      rw [div_lt_one (by norm_num)]
      exact_mod_cast Nat.lt_of_lt_of_le (Nat.lt_succ_self m) hm
    have hle : ¬ (1 : ℚ) < (m : ℚ) / 120 + 1/120 := by
      rw [not_lt]
      rw [div_add_div_same, div_le_one (by norm_num)]
      have : (m : ℚ) + 1 ≤ 120 := by exact_mod_cast hm
      linarith
    rw [blendStep, if_pos hlt]
    simp only [if_neg hle]
    push_cast
    ring

/-! ## Claims -/

/-- C2 (counterexample): the heatmap branches below and at the breakpoint
`t = 0.5` do NOT agree to within floating tolerance: the blue channel of the
second segment evaluates to 0.01 at `t = 0.5` while the third segment gives
0, a gap of 1/100, far beyond any single-precision tolerance (1/1000 is
already generous). -/
theorem claim_C2_counterexample :
    (heatSeg2 (1/2)).2.2 = 1/100 ∧ (heatSeg3 (1/2)).2.2 = 0 ∧
    ¬ |(heatSeg2 (1/2)).2.2 - (heatSeg3 (1/2)).2.2| ≤ 1/1000 := by
  refine ⟨by norm_num [heatSeg2], by norm_num [heatSeg3], ?_⟩
  norm_num [heatSeg2, heatSeg3]
  rw [abs_of_pos] <;> norm_num

/-- C2 (amended): the heatmap is continuous at `t = 0.2` (the two branches
agree exactly there); at `t = 0.5` the red and green channels agree but the
blue channels differ by exactly 1/100, and at `t = 0.8` the green and blue
channels agree but the red channels differ by exactly 1/100 (the 3.3 slope
approximates 1/0.3 only loosely). -/
theorem claim_C2_amended :
    heatSeg1 (1/5) = heatSeg2 (1/5) ∧
    (heatSeg2 (1/2)).1 = (heatSeg3 (1/2)).1 ∧
    (heatSeg2 (1/2)).2.1 = (heatSeg3 (1/2)).2.1 ∧
    (heatSeg2 (1/2)).2.2 - (heatSeg3 (1/2)).2.2 = 1/100 ∧
    (heatSeg3 (4/5)).2.1 = (heatSeg4 (4/5)).2.1 ∧
    (heatSeg3 (4/5)).2.2 = (heatSeg4 (4/5)).2.2 ∧
    (heatSeg4 (4/5)).1 - (heatSeg3 (4/5)).1 = 1/100 := by
  norm_num [heatSeg1, heatSeg2, heatSeg3, heatSeg4]

/-- C5: the transition blend is monotone non-decreasing under `blendStep`,
never exceeds 1 (starting from any value ≤ 1), and 120 applications of the
per-frame increment starting from 0 yield exactly 1. -/
theorem claim_C5 (b : ℚ) (hb : b ≤ 1) :
    b ≤ blendStep b ∧ blendStep b ≤ 1 ∧ blendStep^[120] (0:ℚ) = 1 := by
  refine ⟨?_, ?_, ?_⟩
  · simp only [blendStep]
    split_ifs <;> linarith
  · simp only [blendStep]
    split_ifs <;> linarith
  · rw [blendIterEq 120 le_rfl]; norm_num

/-- C5 (witness): the theorem instantiated at blend = 1/2. -/
theorem claim_C5_witness :
    (1/2 : ℚ) ≤ 1 ∧ ((1/2 : ℚ) ≤ blendStep (1/2) ∧ blendStep (1/2) ≤ 1 ∧ blendStep^[120] (0:ℚ) = 1) :=
  ⟨by norm_num, claim_C5 (1/2) (by norm_num)⟩

/-- C7: one application of the parameter interpolation
`cur += (target - cur) * 0.02` leaves, on each of the six fields, a residual
`target - cur` exactly 49/50 of the old one; hence whenever the field has
not yet reached its target, the distance strictly decreases and the residual
keeps its sign (no overshoot). -/
theorem claim_C7 (t c : Params)
    (ha : c.a ≠ t.a) (hb : c.b ≠ t.b) (hc : c.c ≠ t.c)
    (hd : c.d ≠ t.d) (he : c.e ≠ t.e) (hf : c.f ≠ t.f) :
    (t.a - (paramLerp t c).a = (49/50) * (t.a - c.a) ∧
      |t.a - (paramLerp t c).a| < |t.a - c.a| ∧ 0 < (t.a - (paramLerp t c).a) * (t.a - c.a)) ∧
    (t.b - (paramLerp t c).b = (49/50) * (t.b - c.b) ∧
      |t.b - (paramLerp t c).b| < |t.b - c.b| ∧ 0 < (t.b - (paramLerp t c).b) * (t.b - c.b)) ∧
    (t.c - (paramLerp t c).c = (49/50) * (t.c - c.c) ∧
      |t.c - (paramLerp t c).c| < |t.c - c.c| ∧ 0 < (t.c - (paramLerp t c).c) * (t.c - c.c)) ∧
    (t.d - (paramLerp t c).d = (49/50) * (t.d - c.d) ∧
      |t.d - (paramLerp t c).d| < |t.d - c.d| ∧ 0 < (t.d - (paramLerp t c).d) * (t.d - c.d)) ∧
    (t.e - (paramLerp t c).e = (49/50) * (t.e - c.e) ∧
      |t.e - (paramLerp t c).e| < |t.e - c.e| ∧ 0 < (t.e - (paramLerp t c).e) * (t.e - c.e)) ∧
    (t.f - (paramLerp t c).f = (49/50) * (t.f - c.f) ∧
      |t.f - (paramLerp t c).f| < |t.f - c.f| ∧ 0 < (t.f - (paramLerp t c).f) * (t.f - c.f)) := by
  have key : ∀ tv cv : ℚ, cv ≠ tv →
      tv - (cv + (tv - cv) * (1/50)) = (49/50) * (tv - cv) ∧
      |tv - (cv + (tv - cv) * (1/50))| < |tv - cv| ∧
      0 < (tv - (cv + (tv - cv) * (1/50))) * (tv - cv) := by
    intro tv cv h
    have hd0 : tv - cv ≠ 0 := sub_ne_zero.mpr (Ne.symm h)
    have habs : 0 < |tv - cv| := abs_pos.mpr hd0
    have heq : tv - (cv + (tv - cv) * (1/50)) = (49/50) * (tv - cv) := by ring
    refine ⟨heq, ?_, ?_⟩
    · rw [heq, abs_mul]
      have : |(49/50 : ℚ)| = 49/50 := by norm_num
      rw [this]
      linarith
    · rw [heq]
      have hsq : 0 < (tv - cv) * (tv - cv) := mul_self_pos.mpr hd0
      nlinarith
  exact ⟨key t.a c.a ha, key t.b c.b hb, key t.c c.c hc,
         key t.d c.d hd, key t.e c.e he, key t.f c.f hf⟩

/-- C7 (witness): the theorem instantiated at target all-ones, current
all-zeros. -/
theorem claim_C7_witness :
    ((0:ℚ) ≠ 1) ∧
    ((1:ℚ) - (paramLerp ⟨1,1,1,1,1,1⟩ ⟨0,0,0,0,0,0⟩).a = (49/50) * ((1:ℚ) - 0) ∧
      |(1:ℚ) - (paramLerp ⟨1,1,1,1,1,1⟩ ⟨0,0,0,0,0,0⟩).a| < |(1:ℚ) - 0| ∧
      0 < ((1:ℚ) - (paramLerp ⟨1,1,1,1,1,1⟩ ⟨0,0,0,0,0,0⟩).a) * ((1:ℚ) - 0)) := by
  have h := claim_C7 ⟨1,1,1,1,1,1⟩ ⟨0,0,0,0,0,0⟩
    (by norm_num) (by norm_num) (by norm_num) (by norm_num) (by norm_num) (by norm_num)
  exact ⟨by norm_num, h.1⟩

/-- C10: for every input `t` (the clamp makes this hold even for `t` outside
`[0,1]`) the heatmap's red, green and blue values lie in `[0,1]`; the depth
fade lies in `(0,1]`; hence every per-channel rasterization contribution
`channel * depth_fade` lies in `[0,1]`. -/
theorem claim_C10 (t rz : ℚ) :
    (0 ≤ (get_heatmap_color t).1 ∧ (get_heatmap_color t).1 ≤ 1) ∧
    (0 ≤ (get_heatmap_color t).2.1 ∧ (get_heatmap_color t).2.1 ≤ 1) ∧
    (0 ≤ (get_heatmap_color t).2.2 ∧ (get_heatmap_color t).2.2 ≤ 1) ∧
    (0 < depthFade rz ∧ depthFade rz ≤ 1) ∧
    (0 ≤ (get_heatmap_color t).1 * depthFade rz ∧ (get_heatmap_color t).1 * depthFade rz ≤ 1) ∧
    (0 ≤ (get_heatmap_color t).2.1 * depthFade rz ∧ (get_heatmap_color t).2.1 * depthFade rz ≤ 1) ∧
    (0 ≤ (get_heatmap_color t).2.2 * depthFade rz ∧ (get_heatmap_color t).2.2 * depthFade rz ≤ 1) := by
  obtain ⟨⟨hr0, hr1⟩, ⟨hg0, hg1⟩, ⟨hb0, hb1⟩⟩ := heatColor_mem t
  obtain ⟨hf0, hf1⟩ := depthFade_mem rz
  refine ⟨⟨hr0, hr1⟩, ⟨hg0, hg1⟩, ⟨hb0, hb1⟩, ⟨hf0, hf1⟩, ⟨?_, ?_⟩, ⟨?_, ?_⟩, ⟨?_, ?_⟩⟩
  · exact mul_nonneg hr0 (le_of_lt hf0)
  · nlinarith
  · exact mul_nonneg hg0 (le_of_lt hf0)
  · nlinarith
  · exact mul_nonneg hb0 (le_of_lt hf0)
  · nlinarith

theorem changeCount_succ (fpf : ℕ) (s0 : SchedState) (n : ℕ) :
    changeCount fpf s0 (n + 1) =
      changeCount fpf s0 n + (if isChange fpf s0 n = true then 1 else 0) := by
  simp only [changeCount, List.range_succ, List.filter_append, List.length_append]
  split_ifs with h <;> simp [List.filter, h]

theorem schedFrame_boundary_change (fpf f : ℕ) (s : SchedState) (hb : f % fpf = 0)
    (hc : 6 ≤ s.algoTimer + 1) :
    schedFrame fpf f s = { algoTimer := 0, currentType := (s.currentType + 1) % 5,
                           previousType := s.currentType, blend := blendStep 0 } := by
  simp [schedFrame, hb, boundaryStep, hc]

theorem schedFrame_boundary_nochange (fpf f : ℕ) (s : SchedState) (hb : f % fpf = 0)
    (hc : ¬ 6 ≤ s.algoTimer + 1) :
    schedFrame fpf f s = { s with algoTimer := s.algoTimer + 1, blend := blendStep s.blend } := by
  simp [schedFrame, hb, boundaryStep, hc]

theorem schedFrame_nonboundary (fpf f : ℕ) (s : SchedState) (hb : ¬ f % fpf = 0) :
    schedFrame fpf f s = { s with blend := blendStep s.blend } := by
  simp [schedFrame, hb]

theorem schedInv (fpf : ℕ) (s0 : SchedState) (h0 : s0.algoTimer = 0) (h5 : s0.currentType < 5) :
    ∀ n, (schedRun fpf n s0).algoTimer = bCount fpf n % 6 ∧
      changeCount fpf s0 n = bCount fpf n / 6 ∧
      (schedRun fpf n s0).currentType = (s0.currentType + bCount fpf n / 6) % 5 := by
  intro n
  induction n with
  | zero =>
    refine ⟨by simpa [schedRun, bCount], by simp [changeCount, bCount], ?_⟩
    simp only [schedRun, bCount]
    omega
  | succ m ih =>
    obtain ⟨iht, ihc, ihy⟩ := ih
    rw [changeCount_succ]
    have hrun : schedRun fpf (m + 1) s0 = schedFrame fpf m (schedRun fpf m s0) := rfl
    by_cases hb : m % fpf = 0
    · have hbc : bCount fpf (m + 1) = bCount fpf m + 1 := by simp [bCount, hb]
      by_cases ht : bCount fpf m % 6 = 5
      · have hcond : 6 ≤ (schedRun fpf m s0).algoTimer + 1 := by omega
        have hch : isChange fpf s0 m = true := by simp [isChange, hb, hcond]
        rw [hrun, schedFrame_boundary_change fpf m _ hb hcond]
        refine ⟨by simp; omega, ?_, ?_⟩
        · rw [if_pos hch, ihc]
          omega
        · simp only [ihy, hbc]
          omega
      · have hcond : ¬ 6 ≤ (schedRun fpf m s0).algoTimer + 1 := by omega
        have hch : isChange fpf s0 m = false := by simp [isChange, hb, hcond]
        rw [hrun, schedFrame_boundary_nochange fpf m _ hb hcond]
        refine ⟨?_, ?_, ?_⟩
        · simp only [iht, hbc]
          omega
        · rw [hch]
          simp only [Bool.false_eq_true, if_false, hbc, Nat.add_zero]
          rw [ihc]
          omega
        · simp only [ihy, hbc]
          omega
    · have hbc : bCount fpf (m + 1) = bCount fpf m := by simp [bCount, hb]
      have hch : isChange fpf s0 m = false := by simp [isChange, hb]
      rw [hrun, schedFrame_nonboundary fpf m _ hb]
      refine ⟨by simpa [hbc] using iht, ?_, by simpa [hbc] using ihy⟩
      rw [hch]
      simp only [Bool.false_eq_true, if_false, hbc, Nat.add_zero]
      exact ihc

theorem bCount_mul_aux (fpf j : ℕ) (hf : 1 ≤ fpf) (hj : bCount fpf (j * fpf) = j) :
    ∀ r, 1 ≤ r → r ≤ fpf → bCount fpf (j * fpf + r) = j + 1 := by
  intro r
  induction r with
  | zero => omega
  | succ m ih =>
    intro _ hle
    have harg : j * fpf + (m + 1) = (j * fpf + m) + 1 := by ring
    rw [harg]
    by_cases hm : m = 0
    · subst hm
      have hmod : (j * fpf + 0) % fpf = 0 := by simp [Nat.mul_mod_left]
      simp only [bCount, hmod, if_true, Nat.add_zero]
      rw [hj]
      simp [Nat.mul_mod_left]
    · have hmod : (j * fpf + m) % fpf = m := by
        rw [Nat.add_comm (j * fpf) m, Nat.add_mul_mod_self_right]
        exact Nat.mod_eq_of_lt (by omega)
      have hmne : ¬ (j * fpf + m) % fpf = 0 := by rw [hmod]; omega
      simp only [bCount, if_neg hmne, Nat.add_zero]
      exact ih (by omega) (by omega)

theorem bCount_mul (fpf : ℕ) (hf : 1 ≤ fpf) : ∀ j, bCount fpf (j * fpf) = j := by
  intro j
  induction j with
  | zero => simp [bCount]
  | succ m ih =>
    have h := bCount_mul_aux fpf m hf ih fpf hf le_rfl
    have harg : (m + 1) * fpf = m * fpf + fpf := by ring
    rw [harg, h]

/-- C4: type cycling — (i) a non-boundary frame (`frame % frames_per_fragment
≠ 0`) never changes the current/previous attractor type; (ii) when the
fragment timer reaches 6 the boundary action sets `previous_type` to the old
`current_type`, advances `current_type = (current_type + 1) % 5`, and resets
the blend to 0; (iii) starting from the initial state (timer 0), the number
of type changes after n frames equals the number of elapsed fragment
boundaries divided by 6 — one change per six fragments; in particular (iv)
over exactly `6 * frames_per_fragment` frames exactly one type change
occurs, leaving `current_type = (start + 1) % 5`. -/
theorem claim_C4 (fpf : ℕ) (s0 : SchedState) (hf : 1 ≤ fpf)
    (h0 : s0.algoTimer = 0) (h5 : s0.currentType < 5) :
    (∀ f : ℕ, ∀ s : SchedState, f % fpf ≠ 0 →
        (schedFrame fpf f s).currentType = s.currentType ∧
        (schedFrame fpf f s).previousType = s.previousType) ∧
    (∀ s : SchedState, 6 ≤ s.algoTimer + 1 →
        boundaryStep s = { algoTimer := 0, currentType := (s.currentType + 1) % 5,
                           previousType := s.currentType, blend := 0 }) ∧
    (∀ n : ℕ, changeCount fpf s0 n = bCount fpf n / 6) ∧
    changeCount fpf s0 (6 * fpf) = 1 ∧
    (schedRun fpf (6 * fpf) s0).currentType = (s0.currentType + 1) % 5 := by
  have hb : bCount fpf (6 * fpf) = 6 := bCount_mul fpf hf 6
  obtain ⟨ht, hc, hy⟩ := schedInv fpf s0 h0 h5 (6 * fpf)
  refine ⟨?_, ?_, ?_, ?_, ?_⟩
  · intro f s hf2
    constructor <;> simp [schedFrame, hf2]
  · intro s hs
    simp [boundaryStep, hs]
  · intro n
    exact (schedInv fpf s0 h0 h5 n).2.1
  · rw [hc, hb]
  · rw [hy, hb]

/-- C4 (witness): the theorem instantiated at `frames_per_fragment = 1` and
the initial state (timer 0, type 0, blend 1). -/
theorem claim_C4_witness :
    (1 ≤ 1 ∧ (⟨0, 0, 0, 1⟩ : SchedState).algoTimer = 0 ∧
      (⟨0, 0, 0, 1⟩ : SchedState).currentType < 5) ∧
    ((∀ f : ℕ, ∀ s : SchedState, f % 1 ≠ 0 →
        (schedFrame 1 f s).currentType = s.currentType ∧
        (schedFrame 1 f s).previousType = s.previousType) ∧
    (∀ s : SchedState, 6 ≤ s.algoTimer + 1 →
        boundaryStep s = { algoTimer := 0, currentType := (s.currentType + 1) % 5,
                           previousType := s.currentType, blend := 0 }) ∧
    (∀ n : ℕ, changeCount 1 ⟨0, 0, 0, 1⟩ n = bCount 1 n / 6) ∧
    changeCount 1 ⟨0, 0, 0, 1⟩ (6 * 1) = 1 ∧
    (schedRun 1 (6 * 1) ⟨0, 0, 0, 1⟩).currentType = ((⟨0, 0, 0, 1⟩ : SchedState).currentType + 1) % 5) :=
  ⟨⟨le_rfl, rfl, by norm_num⟩, claim_C4 1 ⟨0, 0, 0, 1⟩ le_rfl rfl (by norm_num)⟩

theorem sampleIdx_length (n : ℕ) : (sampleIdx n).length = (n + 99) / 100 := by
  simp [sampleIdx]

/-- C3 (counterexample): with 101 particles all at rotated-x 1 (and `theta`
such that `cos = 1`, `sin = 0`), the loop visits indices 0 and 100 (two
samples), but `num_samples = 101 / 100 = 1`, so the stored centroid is 2
while the arithmetic mean over the sampled particles is 1 — the claim fails
for particle counts that are not multiples of 100. -/
theorem claim_C3_counterexample :
    centerX 1 0 (fun _ => 1) (fun _ => 0) 101 = 2 ∧
    ((sampleIdx 101).map (fun i => rotX 1 0 ((fun _ => (1:ℚ)) i) ((fun _ => (0:ℚ)) i))).sum
      / ((sampleIdx 101).length : ℚ) = 1 ∧
    (2 : ℚ) ≠ 1 := by
  refine ⟨?_, ?_, by norm_num⟩ <;>
    norm_num [centerX, sumSampleX, sampleIdx, numSamples, rotX, List.range_succ]

/-- C3 (amended): the aggregator divides by `num_samples = N / 100` (integer
floor), which equals the number of sampled indices exactly when 100 divides
N (as it does for the default N = 2,000,000); under that hypothesis the
stored centroids are the arithmetic means of rotated x (resp. y) over the
stride-100 subsample, and the second pass computes the mean absolute
deviation from that centroid with the same divisor. -/
theorem claim_C3_amended (ct st : ℚ) (hx hy hz : ℕ → ℚ) (n : ℕ)
    (h100 : 100 ∣ n) (hn : 0 < n) :
    centerX ct st hx hz n =
      ((sampleIdx n).map (fun i => rotX ct st (hx i) (hz i))).sum / ((sampleIdx n).length : ℚ) ∧
    centerY hy n = ((sampleIdx n).map (fun i => hy i)).sum / ((sampleIdx n).length : ℚ) ∧
    meanDistX ct st hx hz n =
      ((sampleIdx n).map (fun i =>
        |rotX ct st (hx i) (hz i) -
          ((sampleIdx n).map (fun j => rotX ct st (hx j) (hz j))).sum
            / ((sampleIdx n).length : ℚ)|)).sum / ((sampleIdx n).length : ℚ) ∧
    meanDistY hy n =
      ((sampleIdx n).map (fun i =>
        |hy i - ((sampleIdx n).map (fun j => hy j)).sum / ((sampleIdx n).length : ℚ)|)).sum
        / ((sampleIdx n).length : ℚ) := by
  have hlen : (sampleIdx n).length = numSamples n := by
    rw [sampleIdx_length]
    unfold numSamples
    omega
  refine ⟨?_, ?_, ?_, ?_⟩ <;>
    simp only [centerX, centerY, meanDistX, meanDistY, sumSampleX, sumSampleY, hlen]

/-- C3 (witness): the amended theorem instantiated at N = 100 with all
particles at the origin. -/
theorem claim_C3_witness :
    (100 ∣ 100 ∧ 0 < 100) ∧
    (centerX 1 0 (fun _ => 0) (fun _ => 0) 100 =
      ((sampleIdx 100).map (fun i => rotX 1 0 ((fun _ => (0:ℚ)) i) ((fun _ => (0:ℚ)) i))).sum
        / ((sampleIdx 100).length : ℚ) ∧
    centerY (fun _ => (0:ℚ)) 100 =
      ((sampleIdx 100).map (fun i => (fun _ => (0:ℚ)) i)).sum / ((sampleIdx 100).length : ℚ) ∧
    meanDistX 1 0 (fun _ => 0) (fun _ => 0) 100 =
      ((sampleIdx 100).map (fun i =>
        |rotX 1 0 ((fun _ => (0:ℚ)) i) ((fun _ => (0:ℚ)) i) -
          ((sampleIdx 100).map (fun j => rotX 1 0 ((fun _ => (0:ℚ)) j) ((fun _ => (0:ℚ)) j))).sum
            / ((sampleIdx 100).length : ℚ)|)).sum / ((sampleIdx 100).length : ℚ) ∧
    meanDistY (fun _ => (0:ℚ)) 100 =
      ((sampleIdx 100).map (fun i =>
        |(fun _ => (0:ℚ)) i - ((sampleIdx 100).map (fun j => (fun _ => (0:ℚ)) j)).sum
          / ((sampleIdx 100).length : ℚ)|)).sum / ((sampleIdx 100).length : ℚ)) :=
  ⟨⟨by norm_num, by norm_num⟩,
    claim_C3_amended 1 0 (fun _ => 0) (fun _ => 0) (fun _ => 0) 100 (by norm_num) (by norm_num)⟩

/-- C1 (counterexample): the escape/divergence test of line 341 checks
`isnan` on x only, so a NaN can survive the pass in y or z.  Concretely,
under Lorenz dynamics (type 2, blend 1) from the state `(0, 0, NaN)`, the
post-Euler y and z are NaN while x stays 0; no magnitude test fires (IEEE
comparisons with NaN are false) and `isnan(x)` is false, so the particle is
stored with NaN in y and z and is NOT respawned — contradicting both "none
of x, y, z is not-a-number" after the pass and "the recovery rule triggers
whenever any coordinate is not-a-number". -/
theorem claim_C1_counterexample :
    integrateStep (fun _ => 0) 2 2 1 ⟨10, 28, 133/50, 0, 0, 0⟩ 0
        (Flt.fin 0) (Flt.fin 0) Flt.nan =
      { x := Flt.fin 0, y := Flt.nan, z := Flt.nan,
        vx := Flt.fin 0, vy := Flt.nan, vz := Flt.nan } := by
  have he : eulerStep (fun _ => 0) 2 2 1 ⟨10, 28, 133/50, 0, 0, 0⟩
      (Flt.fin 0) (Flt.fin 0) Flt.nan =
      { x := Flt.fin 0, y := Flt.nan, z := Flt.nan,
        vx := Flt.fin 0, vy := Flt.nan, vz := Flt.nan } := by
    simp [eulerStep, fieldEval, fq]
  have hesc : escapeCond
      ({ x := Flt.fin 0, y := Flt.nan, z := Flt.nan,
         vx := Flt.fin 0, vy := Flt.nan, vz := Flt.nan } : PartOut) = false := by
    simp only [escapeCond, absGt_fin, absGt_nan, isnan_fin, Bool.or_false, Bool.false_or,
      decide_eq_false_iff_not, not_lt]
    norm_num
  simp [integrateStep, he, hesc]

/-- C1 (amended): for NaN-free input states — which is every state the
program ever stores, since the initial positions are finite and this very
invariant is maintained — one integration step (Euler advance followed by
the escape/divergence rule of lines 341-345) always stores finite (non-NaN)
coordinates and velocities with `|x|, |y|, |z| ≤ 80`: whenever a post-Euler
coordinate magnitude exceeds 80 the particle is respawned at the bounded
index-hash point. -/
theorem claim_C1_amended (sq : ℚ → ℚ) (ct pt : ℕ) (blend : ℚ) (p : Params) (i : ℕ)
    (a b c : ℚ) :
    ∃ ax ay az vx vy vz : ℚ,
      integrateStep sq ct pt blend p i (Flt.fin a) (Flt.fin b) (Flt.fin c) =
        { x := Flt.fin ax, y := Flt.fin ay, z := Flt.fin az,
          vx := Flt.fin vx, vy := Flt.fin vy, vz := Flt.fin vz } ∧
      |ax| ≤ 80 ∧ |ay| ≤ 80 ∧ |az| ≤ 80 := by
  obtain ⟨x1, y1, z1, dx, dy, dz, he⟩ := eulerStep_fin sq ct pt blend p a b c
  by_cases hesc :
      escapeCond (eulerStep sq ct pt blend p (Flt.fin a) (Flt.fin b) (Flt.fin c)) = true
  · refine ⟨respawnCoord i, respawnCoord i, respawnCoord i, 0, 0, 0, ?_, ?_, ?_, ?_⟩
    · simp [integrateStep, hesc]
    all_goals
      obtain ⟨hb1, hb2⟩ := respawnCoord_bounds i
      rw [abs_le]
      constructor <;> linarith
  · rw [he] at hesc
    rw [Bool.not_eq_true] at hesc
    have hb2 : |x1| ≤ 80 ∧ |y1| ≤ 80 ∧ |z1| ≤ 80 := by
      have h2 := hesc
      simp only [escapeCond, absGt_fin, isnan_fin, Bool.or_false, Bool.or_eq_false_iff,
        decide_eq_false_iff_not, not_lt] at h2
      exact ⟨h2.1.1, h2.1.2, h2.2⟩
    refine ⟨x1, y1, z1, dx, dy, dz, ?_, hb2.1, hb2.2.1, hb2.2.2⟩
    simp [integrateStep, he, hesc]

/-- C9 (counterexample): particle index 1,700,000 (well below the default
2,000,000 particle count) makes `i * 1327 = 2,255,900,000` overflow the
32-bit `int`, wrapping to -2,039,067,296; C's truncated `%` then yields
-296, so the respawned coordinate is `(-0.296 - 0.5) * 4 = -3.184`, outside
the claimed `[-2, 2]` — here exhibited from the out-of-bound state
`(1000, 0, 0)` under Lorenz dynamics. -/
theorem claim_C9_counterexample :
    integrateStep (fun _ => 0) 2 2 1 ⟨10, 28, 133/50, 0, 0, 0⟩ 1700000
        (Flt.fin 1000) (Flt.fin 0) (Flt.fin 0) =
      { x := Flt.fin (-398/125), y := Flt.fin (-398/125), z := Flt.fin (-398/125),
        vx := Flt.fin 0, vy := Flt.fin 0, vz := Flt.fin 0 } ∧
    (-398/125 : ℚ) < -2 := by
  have hrc : respawnCoord 1700000 = -398/125 := by
    norm_num [respawnCoord, wrap32, cRemT]
  have he : eulerStep (fun _ => 0) 2 2 1 ⟨10, 28, 133/50, 0, 0, 0⟩
      (Flt.fin 1000) (Flt.fin 0) (Flt.fin 0) =
      { x := Flt.fin 880, y := Flt.fin 336, z := Flt.fin 0,
        vx := Flt.fin (-10000), vy := Flt.fin 28000, vz := Flt.fin 0 } := by
    simp only [eulerStep, fieldEval, fq]
    norm_num
  have hesc : escapeCond (eulerStep (fun _ => 0) 2 2 1 ⟨10, 28, 133/50, 0, 0, 0⟩
      (Flt.fin 1000) (Flt.fin 0) (Flt.fin 0)) = true := by
    rw [he]
    simp only [escapeCond, absGt_fin, isnan_fin, Bool.or_eq_true, decide_eq_true_eq]
    norm_num
  refine ⟨?_, by norm_num⟩
  simp [integrateStep, hesc, hrc]

/-- C9 (amended): whenever the escape test fires, the particle is respawned
at a position depending only on its index, with all three coordinates equal
and the velocity zeroed; the common coordinate lies in `[-2, 2]` provided
`i * 1327` does not overflow a 32-bit int (i.e. for all indices up to
1,618,300), and in general lies in `(-6, 6)`. -/
theorem claim_C9_amended (sq : ℚ → ℚ) (ct pt : ℕ) (blend : ℚ) (p : Params) (i : ℕ)
    (x y z : Flt)
    (hout : escapeCond (eulerStep sq ct pt blend p x y z) = true) :
    integrateStep sq ct pt blend p i x y z =
      { x := Flt.fin (respawnCoord i), y := Flt.fin (respawnCoord i),
        z := Flt.fin (respawnCoord i),
        vx := Flt.fin 0, vy := Flt.fin 0, vz := Flt.fin 0 } ∧
    (-6 < respawnCoord i ∧ respawnCoord i < 6) ∧
    (i * 1327 < 2 ^ 31 → -2 ≤ respawnCoord i ∧ respawnCoord i ≤ 2) := by
  refine ⟨by simp [integrateStep, hout], respawnCoord_bounds i, ?_⟩
  intro hov
  have hw : wrap32 (i * 1327) = ((i * 1327 : ℕ) : ℤ) := by
    unfold wrap32
    rw [Nat.mod_eq_of_lt (by omega)]
    push_cast
    ring
  have hnn : (0:ℤ) ≤ ((i * 1327 : ℕ) : ℤ) := Int.natCast_nonneg _
  have hr : cRemT (wrap32 (i * 1327)) 1000 = ((i * 1327 : ℕ) : ℤ) % 1000 := by
    rw [hw, cRemT, if_pos hnn]
  have h0 : (0:ℤ) ≤ ((i * 1327 : ℕ) : ℤ) % 1000 :=
    Int.emod_nonneg _ (by norm_num)
  have h999 : ((i * 1327 : ℕ) : ℤ) % 1000 < 1000 :=
    Int.emod_lt_of_pos _ (by norm_num)
  unfold respawnCoord
  rw [hr]
  have hq0 : (0:ℚ) ≤ ((((i * 1327 : ℕ) : ℤ) % 1000 : ℤ) : ℚ) := by exact_mod_cast h0
  have hq9 : ((((i * 1327 : ℕ) : ℤ) % 1000 : ℤ) : ℚ) < 1000 := by exact_mod_cast h999
  constructor <;> linarith

/-- C9 (witness): the amended theorem instantiated at particle 0 injected at
`(1000, 0, 0)` under Lorenz dynamics — the Euler step lands at x = 880,
which is out of bound, and the particle respawns at `(-2, -2, -2)` with zero
velocity. -/
theorem claim_C9_witness :
    escapeCond (eulerStep (fun _ => 0) 2 2 1 ⟨10, 28, 133/50, 0, 0, 0⟩
        (Flt.fin 1000) (Flt.fin 0) (Flt.fin 0)) = true ∧
    (integrateStep (fun _ => 0) 2 2 1 ⟨10, 28, 133/50, 0, 0, 0⟩ 0
        (Flt.fin 1000) (Flt.fin 0) (Flt.fin 0) =
      { x := Flt.fin (respawnCoord 0), y := Flt.fin (respawnCoord 0),
        z := Flt.fin (respawnCoord 0),
        vx := Flt.fin 0, vy := Flt.fin 0, vz := Flt.fin 0 } ∧
    (-6 < respawnCoord 0 ∧ respawnCoord 0 < 6) ∧
    (0 * 1327 < 2 ^ 31 → -2 ≤ respawnCoord 0 ∧ respawnCoord 0 ≤ 2)) := by
  have he : eulerStep (fun _ => 0) 2 2 1 ⟨10, 28, 133/50, 0, 0, 0⟩
      (Flt.fin 1000) (Flt.fin 0) (Flt.fin 0) =
      { x := Flt.fin 880, y := Flt.fin 336, z := Flt.fin 0,
        vx := Flt.fin (-10000), vy := Flt.fin 28000, vz := Flt.fin 0 } := by
    simp only [eulerStep, fieldEval, fq]
    norm_num
  have hesc : escapeCond (eulerStep (fun _ => 0) 2 2 1 ⟨10, 28, 133/50, 0, 0, 0⟩
      (Flt.fin 1000) (Flt.fin 0) (Flt.fin 0)) = true := by
    rw [he]
    simp only [escapeCond, absGt_fin, isnan_fin, Bool.or_eq_true, decide_eq_true_eq]
    norm_num
  exact ⟨hesc, claim_C9_amended (fun _ => 0) 2 2 1 ⟨10, 28, 133/50, 0, 0, 0⟩ 0
    (Flt.fin 1000) (Flt.fin 0) (Flt.fin 0) hesc⟩

theorem smoothStep_mem (s t m M : ℚ) (hs1 : m ≤ s) (hs2 : s ≤ M) (ht1 : m ≤ t) (ht2 : t ≤ M) :
    m ≤ s + (t - s) * (1/200) ∧ s + (t - s) * (1/200) ≤ M := by
  constructor <;> linarith

theorem camTargetScale_mem (cfg : CamCfg) (h : cfg.minZoom ≤ cfg.maxZoom) (tw th : ℚ) :
    cfg.minZoom ≤ camTargetScale cfg tw th ∧ camTargetScale cfg tw th ≤ cfg.maxZoom := by
  simp only [camTargetScale]
  exact clampSeq_mem _ _ _ h

theorem camStep_scale_mem (sq : ℚ → ℚ) (cfg : CamCfg) (h : cfg.minZoom ≤ cfg.maxZoom)
    (fpf frame : ℕ) (sbm mdx mdy msp ccx ccy : ℚ) (cs : CamState)
    (h1 : cfg.minZoom ≤ cs.scale) (h2 : cs.scale ≤ cfg.maxZoom) :
    cfg.minZoom ≤ (camStep sq cfg fpf frame sbm mdx mdy msp ccx ccy cs).scale ∧
    (camStep sq cfg fpf frame sbm mdx mdy msp ccx ccy cs).scale ≤ cfg.maxZoom := by
  simp only [camStep]
  exact smoothStep_mem _ _ _ _ h1 h2 (camTargetScale_mem cfg h _ _).1 (camTargetScale_mem cfg h _ _).2

theorem camRun_scale_mem (sq : ℚ → ℚ) (cfg : CamCfg) (h : cfg.minZoom ≤ cfg.maxZoom) :
    ∀ (l : List CamIn) (cs : CamState), cfg.minZoom ≤ cs.scale → cs.scale ≤ cfg.maxZoom →
      cfg.minZoom ≤ (camRun sq cfg l cs).scale ∧ (camRun sq cfg l cs).scale ≤ cfg.maxZoom := by
  intro l
  induction l with
  | nil => intro cs h1 h2; exact ⟨h1, h2⟩
  | cons hd tl ih =>
    intro cs h1 h2
    have hs := camStep_scale_mem sq cfg h hd.fpf hd.frame hd.sbm hd.mdx hd.mdy hd.msp
      hd.ccx hd.ccy cs h1 h2
    simpa [camRun] using ih _ hs.1 hs.2

/-- C6: the camera scale invariant.  Whenever the configured zoom range is
non-degenerate (`min_zoom ≤ max_zoom`, as with the defaults 60 and 2000):
(i) target extents are floored at 1 (so the target-scale division never has
a zero denominator); (ii) for arbitrary aggregator output the clamped target
scale lies in `[min_zoom, max_zoom]`; (iii) the smoothed camera scale stays
in `[min_zoom, max_zoom]` across one camera update, and (iv) across any run
of frames, from any starting scale inside the range (the default initial
scale 100 is inside the default range). -/
theorem claim_C6 (cfg : CamCfg) (hmm : cfg.minZoom ≤ cfg.maxZoom) :
    (∀ mdist mult : ℚ, 1 ≤ targetExtent mdist mult) ∧
    (∀ tw th : ℚ, cfg.minZoom ≤ camTargetScale cfg tw th ∧
      camTargetScale cfg tw th ≤ cfg.maxZoom) ∧
    (∀ (sq : ℚ → ℚ) (fpf frame : ℕ) (sbm mdx mdy msp ccx ccy : ℚ) (cs : CamState),
      cfg.minZoom ≤ cs.scale → cs.scale ≤ cfg.maxZoom →
        cfg.minZoom ≤ (camStep sq cfg fpf frame sbm mdx mdy msp ccx ccy cs).scale ∧
        (camStep sq cfg fpf frame sbm mdx mdy msp ccx ccy cs).scale ≤ cfg.maxZoom) ∧
    (∀ (sq : ℚ → ℚ) (l : List CamIn) (cs : CamState),
      cfg.minZoom ≤ cs.scale → cs.scale ≤ cfg.maxZoom →
        cfg.minZoom ≤ (camRun sq cfg l cs).scale ∧ (camRun sq cfg l cs).scale ≤ cfg.maxZoom) :=
  ⟨fun mdist mult => targetExtent_ge mdist mult,
   fun tw th => camTargetScale_mem cfg hmm tw th,
   fun sq fpf frame sbm mdx mdy msp ccx ccy cs h1 h2 =>
     camStep_scale_mem sq cfg hmm fpf frame sbm mdx mdy msp ccx ccy cs h1 h2,
   fun sq l cs h1 h2 => camRun_scale_mem sq cfg hmm l cs h1 h2⟩

/-- C6 (witness): the theorem instantiated at the default configuration
(min zoom 60, max zoom 2000). -/
theorem claim_C6_witness :
    defaultCamCfg.minZoom ≤ defaultCamCfg.maxZoom ∧
    ((∀ mdist mult : ℚ, 1 ≤ targetExtent mdist mult) ∧
    (∀ tw th : ℚ, defaultCamCfg.minZoom ≤ camTargetScale defaultCamCfg tw th ∧
      camTargetScale defaultCamCfg tw th ≤ defaultCamCfg.maxZoom) ∧
    (∀ (sq : ℚ → ℚ) (fpf frame : ℕ) (sbm mdx mdy msp ccx ccy : ℚ) (cs : CamState),
      defaultCamCfg.minZoom ≤ cs.scale → cs.scale ≤ defaultCamCfg.maxZoom →
        defaultCamCfg.minZoom ≤
          (camStep sq defaultCamCfg fpf frame sbm mdx mdy msp ccx ccy cs).scale ∧
        (camStep sq defaultCamCfg fpf frame sbm mdx mdy msp ccx ccy cs).scale ≤
          defaultCamCfg.maxZoom) ∧
    (∀ (sq : ℚ → ℚ) (l : List CamIn) (cs : CamState),
      defaultCamCfg.minZoom ≤ cs.scale → cs.scale ≤ defaultCamCfg.maxZoom →
        defaultCamCfg.minZoom ≤ (camRun sq defaultCamCfg l cs).scale ∧
        (camRun sq defaultCamCfg l cs).scale ≤ defaultCamCfg.maxZoom)) :=
  ⟨by norm_num [defaultCamCfg], claim_C6 defaultCamCfg (by norm_num [defaultCamCfg])⟩

theorem toneRaw_nonneg (v : ℝ) (hv : 0 ≤ v) : 0 ≤ toneRaw v := by
  have h1 : (1:ℝ) ≤ 1 + v * (5/2) := by nlinarith
  exact mul_nonneg (Real.log_nonneg h1) (by norm_num)

theorem toneRaw_mono (v1 v2 : ℝ) (h0 : 0 ≤ v1) (h12 : v1 ≤ v2) : toneRaw v1 ≤ toneRaw v2 := by
  have hp : (0:ℝ) < 1 + v1 * (5/2) := by nlinarith
  have hle : 1 + v1 * (5/2) ≤ 1 + v2 * (5/2) := by nlinarith
  exact mul_le_mul_of_nonneg_right (Real.log_le_log hp hle) (by norm_num)

theorem ifclamp_eq_min (r : ℝ) : (if 255 < r then (255:ℝ) else r) = min r 255 := by
  split_ifs with h
  · exact (min_eq_right (le_of_lt h)).symm
  · exact (min_eq_left (not_lt.mp h)).symm

/-- C8: the tone mapper — on non-negative accumulated input (the only values
the additive accumulation buffer can hold) the code's channel computation
agrees with the spec formula `clamp(ln(1 + accum × 2.5) × 45, 0, 255)`
truncated to an integer; the output is monotone in the input, never exceeds
255, and saturates: an accumulated value of `exp 6` (or more) already maps
to exactly 255. -/
theorem claim_C8 (a1 a2 : ℝ) (h0 : 0 ≤ a1) (h12 : a1 ≤ a2) :
    toneChannel a1 = toneChannelSpec a1 ∧
    toneChannel a1 ≤ toneChannel a2 ∧
    toneChannel a2 ≤ 255 ∧
    toneChannel (Real.exp 6) = 255 := by
  refine ⟨?_, ?_, ?_, ?_⟩
  · rw [toneChannel, toneChannelSpec, ifclamp_eq_min]
    congr 1
    rw [max_eq_right]
    exact le_min (toneRaw_nonneg a1 h0) (by norm_num)
  · rw [toneChannel, toneChannel, ifclamp_eq_min, ifclamp_eq_min]
    exact Nat.floor_mono (min_le_min (toneRaw_mono a1 a2 h0 h12) le_rfl)
  · rw [toneChannel, ifclamp_eq_min]
    calc Nat.floor (min (toneRaw a2) 255) ≤ Nat.floor ((255:ℝ)) :=
          Nat.floor_mono (min_le_right _ _)
    _ = 255 := by norm_num
  · have h1 : Real.exp 6 ≤ 1 + Real.exp 6 * (5/2) := by nlinarith [Real.exp_pos 6]
    have h2 : (6:ℝ) ≤ Real.log (1 + Real.exp 6 * (5/2)) := by
      calc (6:ℝ) = Real.log (Real.exp 6) := (Real.log_exp 6).symm
      _ ≤ _ := Real.log_le_log (Real.exp_pos 6) h1
    have h3 : (255:ℝ) < toneRaw (Real.exp 6) := by
      rw [toneRaw]; nlinarith
    rw [toneChannel, if_pos h3]
    norm_num

/-- C8 (witness): the theorem instantiated at accumulated inputs 0 and 0. -/
theorem claim_C8_witness :
    (0:ℝ) ≤ 0 ∧
    (toneChannel 0 = toneChannelSpec 0 ∧ toneChannel 0 ≤ toneChannel 0 ∧
      toneChannel 0 ≤ 255 ∧ toneChannel (Real.exp 6) = 255) :=
  ⟨le_rfl, claim_C8 0 0 le_rfl le_rfl⟩
